import Mathlib

/-!
Verification of the Brainfuck interpreter in `src/brainfuck.rs`.

The Rust source is shallowly embedded below.  `usize` arithmetic is
modelled as `Nat` with explicit wrap at `2 ^ 64` where the source can
overflow or underflow (release-mode semantics of `usize` subtraction and
addition); `isize` cells are modelled as `Int` with explicit two's
complement wrap at `2 ^ 64`; the `as u32` cast on output is modelled as
reduction modulo `2 ^ 32`.  Rust indexing panics are modelled by an
explicit `panicked` outcome.  The `HashMap<usize, usize>` of jump targets
is modelled as an association list whose insert prepends (so lookup sees
the most recent insertion, exactly like `HashMap::insert` overwriting).
The execution loop, which can diverge, is modelled with explicit fuel; a
`timeout` outcome means fuel ran out with execution still in progress.
-/

/-- The eight Brainfuck instructions, mirroring `enum Token` in the source. -/
inductive Token where
  | Incptr
  | Decptr
  | Incbyte
  | Decbyte
  | Outbyte
  | Inbyte
  | Forward
  | Backward
deriving DecidableEq

/-- The two construction failures.  In the source both are reported as
`Err(())` plus a distinguishing diagnostic printed to stderr
(`"unbalanced brackets"` vs `"Missing closed brackets"`); the variant
records which diagnostic was emitted. -/
inductive ConstructionError where
  | unbalancedBrackets
  | missingClosedBrackets
deriving DecidableEq

/-- Runtime fatal errors, one per `eprintln!` + `return Err(())` site in
`Interpreter::run`. -/
inductive RunError where
  | memoryOverflow
  | memoryUnderflow
  | ioError
  | bracketMatch
deriving DecidableEq

/-- One read from the byte input channel (`stdin` in the source): either a
byte arrives, or the read itself fails.  An exhausted channel is modelled
by the event list running out (Rust `read` returning `Ok(0)`). -/
inductive InEvent where
  | byte (b : Nat)
  | ioErr
deriving DecidableEq

/-- The interpreter state, mirroring `struct Interpreter` field by field. -/
structure Interpreter where
  ip : Nat
  dp : Nat
  cells : List Int
  insns : List Token
  jumps : List (Nat × Nat)
deriving DecidableEq

/-- State threaded through `run`: the interpreter itself, the accumulated
output string, and the remaining byte input channel. -/
structure RunState where
  interp : Interpreter
  output : List Char
  input : List InEvent
deriving DecidableEq

/-- The state snapshot printed by `interpreter_state` in debug mode: next
instruction, instruction pointer, data pointer, and all non-zero cells. -/
structure Snapshot where
  nextInsn : Token
  ip : Nat
  dp : Nat
  nonzeroCells : List (Nat × Int)
deriving DecidableEq

/-- Outcome of `run` with a given amount of fuel. -/
inductive RRes where
  | ok (output : List Char)
  | err (e : RunError)
  | panicked
  | timeout
deriving DecidableEq

/-- Lookup in the modelled `HashMap`: first (i.e. most recent) binding wins. -/
def jlookup : List (Nat × Nat) → Nat → Option Nat
  | [], _ => none
  | (a, b) :: t, k => if a = k then some b else jlookup t k

/-- Insert in the modelled `HashMap`: prepend, shadowing older bindings. -/
def jinsert (m : List (Nat × Nat)) (k v : Nat) : List (Nat × Nat) :=
  (k, v) :: m

/-- Body of the lexing loop of `Interpreter::new`: push the token for one
of the eight recognized characters, ignore anything else. -/
def lexStep (insns : List Token) (c : Char) : List Token :=
  match c with
  | '>' => insns ++ [Token.Incptr]
  | '<' => insns ++ [Token.Decptr]
  | '+' => insns ++ [Token.Incbyte]
  | '-' => insns ++ [Token.Decbyte]
  | '.' => insns ++ [Token.Outbyte]
  | ',' => insns ++ [Token.Inbyte]
  | '[' => insns ++ [Token.Forward]
  | ']' => insns ++ [Token.Backward]
  | _ => insns

/-- The lexing pass of `Interpreter::new` (`code.chars().for_each(...)`). -/
def lex (code : String) : List Token :=
  code.toList.foldl lexStep []

/-- Modelled from the spec: the Lexer maps the eight recognized characters
to their Instruction variant and drops every other character.  This is the
specification-side description used to state the refinement claim about
`lex`; it is compared against the source-side `lex` in the theorems. -/
def tokenOfCharSpec (c : Char) : Option Token :=
  match c with
  | '>' => some Token.Incptr
  | '<' => some Token.Decptr
  | '+' => some Token.Incbyte
  | '-' => some Token.Decbyte
  | '.' => some Token.Outbyte
  | ',' => some Token.Inbyte
  | '[' => some Token.Forward
  | ']' => some Token.Backward
  | _ => none

/-- The bracket-matching pass of `Interpreter::new`: iterate over the
instructions with index `i`, keeping the stack `jumpsLoc` of pending
loop-start positions and the accumulated table `jumps`. -/
def buildJumps : List Token → Nat → List Nat → List (Nat × Nat) →
    Except ConstructionError (List (Nat × Nat))
  | [], _, jumpsLoc, jumps =>
    if jumpsLoc.isEmpty then .ok jumps else .error .missingClosedBrackets
  | t :: rest, i, jumpsLoc, jumps =>
    match t with
    | Token.Forward => buildJumps rest (i + 1) (i :: jumpsLoc) jumps
    | Token.Backward =>
      match jumpsLoc with
      | [] => .error .unbalancedBrackets
      | forwardIp :: jumpsLoc' =>
        buildJumps rest (i + 1) jumpsLoc'
          (jinsert (jinsert jumps i forwardIp) forwardIp i)
    | _ => buildJumps rest (i + 1) jumpsLoc jumps

/-- `Interpreter::new`: lex the source, build the jump table (or fail),
and return the initial interpreter with a 1024-cell zeroed tape. -/
def Interpreter.new (code : String) : Except ConstructionError Interpreter :=
  let insns := lex code
  match buildJumps insns 0 [] [] with
  | .error e => .error e
  | .ok jumps =>
    .ok { ip := 0, dp := 0, cells := List.replicate 1024 0,
          insns := insns, jumps := jumps }

/-- Wrapping `usize` decrement by one (`n - 1` in release mode). -/
def usizeWrapSub1 (n : Nat) : Nat := (n + (2 ^ 64 - 1)) % 2 ^ 64

/-- Wrapping `usize` increment by one (`n + 1` in release mode). -/
def usizeWrapSucc (n : Nat) : Nat := (n + 1) % 2 ^ 64

/-- Wrapping `isize` addition (two's complement at 64 bits). -/
def isizeWrapAdd (v d : Int) : Int :=
  (v + d + 2 ^ 63) % 2 ^ 64 - 2 ^ 63

/-- The `as u32` cast applied to a cell before `char::from_u32`:
truncation of the `isize` to its low 32 bits. -/
def castU32 (v : Int) : Nat := (v % 2 ^ 32).toNat

/-- The snapshot assembled by `interpreter_state` before a step. -/
def mkSnapshot (tok : Token) (s : RunState) : Snapshot :=
  { nextInsn := tok, ip := s.interp.ip, dp := s.interp.dp,
    nonzeroCells := s.interp.cells.enum.filter (fun p => p.2 != 0) }

/-- Result of executing the body of one instruction (before the trailing
`self.ip += 1` of the loop). -/
inductive StepOut where
  | cont (s : RunState)
  | halt (e : RunError) (s : RunState)
  | died (s : RunState)
deriving DecidableEq

/-- The `match self.insns[self.ip]` body of `Interpreter::run`, one
instruction.  `halt` is an `eprintln!` + `return Err(())`; `died` is a
Rust panic from indexing `cells` out of bounds. -/
def execInsn (tok : Token) (s : RunState) : StepOut :=
  match tok with
  | Token.Incptr =>
    let dp' := usizeWrapSucc s.interp.dp
    let s' : RunState := { s with interp := { s.interp with dp := dp' } }
    if dp' ≥ s.interp.cells.length then .halt .memoryOverflow s' else .cont s'
  | Token.Decptr =>
    if s.interp.dp = 0 then .halt .memoryUnderflow s
    else .cont { s with interp := { s.interp with dp := s.interp.dp - 1 } }
  | Token.Incbyte =>
    match s.interp.cells[s.interp.dp]? with
    | none => .died s
    | some v =>
      .cont { s with interp :=
        { s.interp with cells := s.interp.cells.set s.interp.dp (isizeWrapAdd v 1) } }
  | Token.Decbyte =>
    match s.interp.cells[s.interp.dp]? with
    | none => .died s
    | some v =>
      .cont { s with interp :=
        { s.interp with cells := s.interp.cells.set s.interp.dp (isizeWrapAdd v (-1)) } }
  | Token.Outbyte =>
    match s.interp.cells[s.interp.dp]? with
    | none => .died s
    | some v =>
      let n := castU32 v
      if Nat.isValidChar n then .cont { s with output := s.output ++ [Char.ofNat n] }
      else .cont s
  | Token.Inbyte =>
    match s.input with
    | [] => .cont s
    | InEvent.ioErr :: _ => .halt .ioError s
    | InEvent.byte b :: rest =>
      match s.interp.cells[s.interp.dp]? with
      | none => .died { s with input := rest }
      | some _ =>
        .cont { s with
          interp := { s.interp with
            cells := s.interp.cells.set s.interp.dp ((b % 256 : Nat) : Int) },
          input := rest }
  | Token.Forward =>
    match s.interp.cells[s.interp.dp]? with
    | none => .died s
    | some v =>
      if v = 0 then
        match jlookup s.interp.jumps s.interp.ip with
        | some newIp => .cont { s with interp := { s.interp with ip := newIp } }
        | none => .halt .bracketMatch s
      else .cont s
  | Token.Backward =>
    match s.interp.cells[s.interp.dp]? with
    | none => .died s
    | some v =>
      if v ≠ 0 then
        match jlookup s.interp.jumps s.interp.ip with
        | some newIp => .cont { s with interp := { s.interp with ip := newIp } }
        | none => .halt .bracketMatch s
      else .cont s

/-- `Interpreter::run` with explicit fuel.  Returns the outcome, the final
`RunState`, and the debug trace (empty when `debug` is off).  The loop
exit test `self.ip > self.insns.len() - 1` is modelled with the wrapping
`usize` subtraction, exactly as the release-mode source computes it; when
the instruction fetch is out of bounds the run `panicked` (with debug on,
`interpreter_state` performs the same out-of-bounds fetch first, so the
outcome is a panic either way). -/
def run (debug : Bool) : Nat → RunState → RRes × RunState × List Snapshot
  | 0, s => (.timeout, s, [])
  | fuel + 1, s =>
    if s.interp.ip > usizeWrapSub1 s.interp.insns.length then
      (.ok s.output, s, [])
    else
      match s.interp.insns[s.interp.ip]? with
      | none => (.panicked, s, [])
      | some tok =>
        let tr := if debug then [mkSnapshot tok s] else []
        match execInsn tok s with
        | .halt e s' => (.err e, s', tr)
        | .died s' => (.panicked, s', tr)
        | .cont s' =>
          let out := run debug fuel
            { s' with interp := { s'.interp with ip := usizeWrapSucc s'.interp.ip } }
          (out.1, out.2.1, tr ++ out.2.2)

/-! ### Arithmetic helper lemmas -/

theorem usizeWrapSub1_eq {n : Nat} (h1 : 1 ≤ n) (h2 : n < 2 ^ 64) :
    usizeWrapSub1 n = n - 1 := by
  unfold usizeWrapSub1; omega

theorem usizeWrapSucc_eq {n : Nat} (h : n + 1 < 2 ^ 64) :
    usizeWrapSucc n = n + 1 := by
  unfold usizeWrapSucc; omega

theorem break_test_false {ip len : Nat} (h : ip < len) (h2 : len < 2 ^ 64) :
    ¬ ip > usizeWrapSub1 len := by
  unfold usizeWrapSub1; omega

theorem isizeWrapAdd_inc_dec (v : Int) (h1 : -(2 ^ 63) ≤ v) (h2 : v < 2 ^ 63) :
    isizeWrapAdd (isizeWrapAdd v 1) (-1) = v := by
  unfold isizeWrapAdd
  have e1 : (v + 1 + 2 ^ 63) % 2 ^ 64 - 2 ^ 63 + -1 + 2 ^ 63 =
      (v + 1 + 2 ^ 63) % 2 ^ 64 + -1 := by ring
  rw [e1, Int.add_emod, Int.emod_emod_of_dvd _ (dvd_refl _), ← Int.add_emod]
  omega

/-! ### Lexer lemmas -/

theorem lexStep_eq (insns : List Token) (c : Char) :
    lexStep insns c = insns ++ (tokenOfCharSpec c).toList := by
  unfold lexStep tokenOfCharSpec
  split <;> simp_all

theorem foldl_lexStep (l : List Char) :
    ∀ acc : List Token, l.foldl lexStep acc = acc ++ l.filterMap tokenOfCharSpec := by
  induction l with
  | nil => intro acc; simp
  | cons c l ih =>
    intro acc
    rw [List.foldl_cons, ih, lexStep_eq, List.filterMap_cons]
    cases h : tokenOfCharSpec c <;> simp [h]

theorem lex_eq_filterMap (code : String) :
    lex code = code.toList.filterMap tokenOfCharSpec := by
  unfold lex
  simpa using foldl_lexStep code.toList []

/-- C3: the Lexer's output Program is exactly the recognized characters of
the source text mapped to their Instruction variant in their original
relative order (every other character silently dropped), and its length
equals the count of recognized characters.  `lex` is a total function, so
no input causes a lexing error. -/
theorem lexer_is_filterMap (code : String) :
    lex code = code.toList.filterMap tokenOfCharSpec ∧
    (lex code).length =
      (code.toList.filter (fun c => (tokenOfCharSpec c).isSome)).length := by
  refine ⟨lex_eq_filterMap code, ?_⟩
  rw [lex_eq_filterMap code]
  induction code.toList with
  | nil => rfl
  | cons c l ih =>
    cases h : tokenOfCharSpec c <;>
      simp [List.filterMap_cons, List.filter_cons, h, ih]

/-- C5: construction from `]` fails with the unbalanced-brackets condition,
construction from `[` fails with the missing-closed-bracket condition, the
two conditions are distinct, and in both cases no interpreter is returned. -/
theorem construction_bracket_errors :
    Interpreter.new "]" = .error ConstructionError.unbalancedBrackets ∧
    Interpreter.new "[" = .error ConstructionError.missingClosedBrackets ∧
    ConstructionError.unbalancedBrackets ≠ ConstructionError.missingClosedBrackets ∧
    (∀ i : Interpreter, Interpreter.new "]" ≠ .ok i) ∧
    (∀ i : Interpreter, Interpreter.new "[" ≠ .ok i) := by
  refine ⟨rfl, rfl, by decide, fun i h => ?_, fun i h => ?_⟩
  · rw [show Interpreter.new "]" = .error ConstructionError.unbalancedBrackets from rfl] at h
    exact Except.noConfusion h
  · rw [show Interpreter.new "[" = .error ConstructionError.missingClosedBrackets from rfl] at h
    exact Except.noConfusion h

/-- C8: a successfully constructed interpreter with an empty Program does
NOT terminate normally: the loop exit test computes `insns.len() - 1`,
which underflows `usize` for an empty program, so the exit is skipped and
the instruction fetch `self.insns[0]` panics (in a debug build the
subtraction itself panics).  The claimed behavior — returning success with
empty output — does not occur; this contradicts the source's own comment
that the program terminates when the instruction pointer moves past the
last command. -/
theorem empty_program_run_panics :
    Interpreter.new "" =
      .ok { ip := 0, dp := 0, cells := List.replicate 1024 0, insns := [], jumps := [] } ∧
    ∀ (debug : Bool) (input : List InEvent) (fuel : Nat),
      (run debug (fuel + 1)
        ⟨{ ip := 0, dp := 0, cells := List.replicate 1024 0, insns := [], jumps := [] },
          [], input⟩).1 = RRes.panicked := by
  refine ⟨rfl, fun debug input fuel => ?_⟩
  rw [run]
  rw [if_neg (by unfold usizeWrapSub1; simp)]
  rfl

/-! ### Jump table invariant -/

/-- Position `k` of the program holds a bracket instruction. -/
def IsBracketAt (l : List Token) (k : Nat) : Prop :=
  l[k]? = some Token.Forward ∨ l[k]? = some Token.Backward

theorem jlookup_cons (a b k : Nat) (m : List (Nat × Nat)) :
    jlookup ((a, b) :: m) k = if a = k then some b else jlookup m k := rfl

/-- Invariant of the bracket-matching pass of `Interpreter::new` after the
first `i` instructions of `l` have been processed, with pending loop-start
stack `st` and accumulated table `m`. -/
structure JInv (l : List Token) (i : Nat) (st : List Nat) (m : List (Nat × Nat)) : Prop where
  stLt : ∀ p ∈ st, p < i
  stFwd : ∀ p ∈ st, l[p]? = some Token.Forward
  stNodup : st.Nodup
  stNone : ∀ p ∈ st, jlookup m p = none
  keySound : ∀ k j, jlookup m k = some j →
    k < i ∧ j < i ∧ k ∉ st ∧ jlookup m j = some k ∧
    ((l[k]? = some Token.Forward ∧ l[j]? = some Token.Backward ∧ k < j) ∨
     (l[k]? = some Token.Backward ∧ l[j]? = some Token.Forward ∧ j < k))
  keyComplete : ∀ k, k < i → IsBracketAt l k → k ∈ st ∨ (jlookup m k).isSome

/-- Properties of a completed jump table: symmetry, keys are exactly the
bracket positions, and every entry pairs a loop-start with a loop-end
further right (or vice versa). -/
def JFinal (l : List Token) (m : List (Nat × Nat)) : Prop :=
  (∀ k j, jlookup m k = some j → jlookup m j = some k) ∧
  (∀ k, (jlookup m k).isSome ↔ IsBracketAt l k) ∧
  (∀ k j, jlookup m k = some j →
    ((l[k]? = some Token.Forward ∧ l[j]? = some Token.Backward ∧ k < j) ∨
     (l[k]? = some Token.Backward ∧ l[j]? = some Token.Forward ∧ j < k)))

theorem jinv_init (l : List Token) : JInv l 0 [] [] := by
  constructor
  · intro p hp; cases hp
  · intro p hp; cases hp
  · exact List.nodup_nil
  · intro p hp; cases hp
  · intro k j h; exact Option.noConfusion h
  · intro k hk _; omega

theorem jinv_weaken {l : List Token} {i : Nat} {st : List Nat} {m : List (Nat × Nat)}
    (hinv : JInv l i st m) {t : Token} (hi : l[i]? = some t)
    (hne1 : t ≠ Token.Forward) (hne2 : t ≠ Token.Backward) : JInv l (i + 1) st m := by
  constructor
  · intro p hp; exact Nat.lt_succ_of_lt (hinv.stLt p hp)
  · exact hinv.stFwd
  · exact hinv.stNodup
  · exact hinv.stNone
  · intro k j h
    obtain ⟨h1, h2, h3, h4, h5⟩ := hinv.keySound k j h
    exact ⟨Nat.lt_succ_of_lt h1, Nat.lt_succ_of_lt h2, h3, h4, h5⟩
  · intro k hk hbr
    rcases Nat.lt_succ_iff_lt_or_eq.mp hk with hk' | rfl
    · exact hinv.keyComplete k hk' hbr
    · exfalso
      rcases hbr with h | h <;> rw [hi] at h <;> injection h with h
      · exact hne1 h
      · exact hne2 h

theorem buildJumps_inv (rest : List Token) :
    ∀ (l : List Token) (i : Nat) (st : List Nat) (m m' : List (Nat × Nat)),
    l.drop i = rest → JInv l i st m → buildJumps rest i st m = .ok m' →
    JFinal l m' := by
  induction rest with
  | nil =>
    intro l i st m m' hdrop hinv hok
    rw [buildJumps] at hok
    split at hok
    case isTrue hst =>
      injection hok with hok
      subst hok
      have hstnil : st = [] := List.isEmpty_iff.mp hst
      have hilen : l.length ≤ i := List.drop_eq_nil_iff.mp hdrop
      refine ⟨fun k j h => (hinv.keySound k j h).2.2.2.1, fun k => ?_,
        fun k j h => (hinv.keySound k j h).2.2.2.2⟩
      constructor
      · intro hk
        obtain ⟨j, hj⟩ := Option.isSome_iff_exists.mp hk
        rcases (hinv.keySound k j hj).2.2.2.2 with ⟨h1, _, _⟩ | ⟨h1, _, _⟩
        · exact Or.inl h1
        · exact Or.inr h1
      · intro hbr
        have hklen : k < l.length := by
          rcases hbr with h | h <;> exact (List.getElem?_eq_some.mp h).1
        rcases hinv.keyComplete k (by omega) hbr with hmem | hsome
        · rw [hstnil] at hmem; cases hmem
        · exact hsome
    case isFalse => exact Except.noConfusion hok
  | cons t rest ih =>
    intro l i st m m' hdrop hinv hok
    have hi : l[i]? = some t := by
      have h0 := List.getElem?_drop l i 0
      rw [hdrop] at h0
      simpa using h0.symm
    have hdrop' : l.drop (i + 1) = rest := by
      have := List.drop_drop 1 i l
      rw [hdrop] at this
      simpa using this.symm
    cases t with
    | Forward =>
      simp only [buildJumps] at hok
      refine ih l (i + 1) (i :: st) m m' hdrop' ?_ hok
      constructor
      · intro p hp
        rcases List.mem_cons.mp hp with rfl | hp
        · omega
        · exact Nat.lt_succ_of_lt (hinv.stLt p hp)
      · intro p hp
        rcases List.mem_cons.mp hp with rfl | hp
        · exact hi
        · exact hinv.stFwd p hp
      · exact List.nodup_cons.mpr ⟨fun hmem => absurd (hinv.stLt i hmem) (lt_irrefl i), hinv.stNodup⟩
      · intro p hp
        rcases List.mem_cons.mp hp with rfl | hp
        · cases hj : jlookup m p with
          | none => rfl
          | some j => exact absurd (hinv.keySound p j hj).1 (lt_irrefl p)
        · exact hinv.stNone p hp
      · intro k j h
        obtain ⟨h1, h2, h3, h4, h5⟩ := hinv.keySound k j h
        exact ⟨Nat.lt_succ_of_lt h1, Nat.lt_succ_of_lt h2,
          fun hmem => by rcases List.mem_cons.mp hmem with rfl | hmem
                         · omega
                         · exact h3 hmem,
          h4, h5⟩
      · intro k hk hbr
        rcases Nat.lt_succ_iff_lt_or_eq.mp hk with hk' | rfl
        · rcases hinv.keyComplete k hk' hbr with hmem | hsome
          · exact Or.inl (List.mem_cons.mpr (Or.inr hmem))
          · exact Or.inr hsome
        · exact Or.inl (List.mem_cons.mpr (Or.inl rfl))
    | Backward =>
      cases st with
      | nil =>
        simp only [buildJumps] at hok
        exact Except.noConfusion hok
      | cons f st' =>
        simp only [buildJumps, jinsert] at hok
        have hf : f < i := hinv.stLt f (List.mem_cons.mpr (Or.inl rfl))
        have hffwd : l[f]? = some Token.Forward := hinv.stFwd f (List.mem_cons.mpr (Or.inl rfl))
        have hfnone : jlookup m f = none := hinv.stNone f (List.mem_cons.mpr (Or.inl rfl))
        have hfnotmem : f ∉ st' := (List.nodup_cons.mp hinv.stNodup).1
        have hst'nodup : st'.Nodup := (List.nodup_cons.mp hinv.stNodup).2
        have hst'lt : ∀ p ∈ st', p < i := fun p hp => hinv.stLt p (List.mem_cons.mpr (Or.inr hp))
        have hlk : ∀ k, jlookup ((f, i) :: (i, f) :: m) k =
            if f = k then some i else if i = k then some f else jlookup m k := by
          intro k; rfl
        refine ih l (i + 1) st' ((f, i) :: (i, f) :: m) m' hdrop' ?_ hok
        constructor
        · intro p hp; exact Nat.lt_succ_of_lt (hst'lt p hp)
        · intro p hp; exact hinv.stFwd p (List.mem_cons.mpr (Or.inr hp))
        · exact hst'nodup
        · intro p hp
          rw [hlk]
          rw [if_neg (by intro hfp; subst hfp; exact hfnotmem hp), if_neg (by
            intro hip
            exact absurd (hst'lt p hp) (by omega))]
          exact hinv.stNone p (List.mem_cons.mpr (Or.inr hp))
        · intro k j h
          rw [hlk] at h
          by_cases hfk : f = k
          · subst hfk
            rw [if_pos rfl] at h
            injection h with h
            subst h
            refine ⟨by omega, by omega, hfnotmem, ?_, Or.inl ⟨hffwd, hi, hf⟩⟩
            rw [hlk, if_neg (by omega), if_pos rfl]
          · rw [if_neg hfk] at h
            by_cases hik : i = k
            · subst hik
              rw [if_pos rfl] at h
              injection h with h
              subst h
              refine ⟨by omega, by omega, fun hmem => absurd (hst'lt i hmem) (by omega), ?_,
                Or.inr ⟨hi, hffwd, hf⟩⟩
              rw [hlk, if_pos rfl]
            · rw [if_neg hik] at h
              obtain ⟨h1, h2, h3, h4, h5⟩ := hinv.keySound k j h
              refine ⟨by omega, by omega,
                fun hmem => h3 (List.mem_cons.mpr (Or.inr hmem)), ?_, h5⟩
              rw [hlk, if_neg (fun hfj => by rw [← hfj] at h4; rw [hfnone] at h4; cases h4),
                if_neg (by omega)]
              exact h4
        · intro k hk hbr
          rw [hlk]
          rcases Nat.lt_succ_iff_lt_or_eq.mp hk with hk' | rfl
          · rcases hinv.keyComplete k hk' hbr with hmem | hsome
            · rcases List.mem_cons.mp hmem with rfl | hmem
              · rw [if_pos rfl]; exact Or.inr rfl
              · exact Or.inl hmem
            · right
              split
              · rfl
              · split
                · rfl
                · exact hsome
          · rw [if_neg (by omega), if_pos rfl]
            exact Or.inr rfl
    | Incptr =>
      simp only [buildJumps] at hok
      exact ih l (i + 1) st m m' hdrop'
        (jinv_weaken hinv hi (fun h => Token.noConfusion h) (fun h => Token.noConfusion h)) hok
    | Decptr =>
      simp only [buildJumps] at hok
      exact ih l (i + 1) st m m' hdrop'
        (jinv_weaken hinv hi (fun h => Token.noConfusion h) (fun h => Token.noConfusion h)) hok
    | Incbyte =>
      simp only [buildJumps] at hok
      exact ih l (i + 1) st m m' hdrop'
        (jinv_weaken hinv hi (fun h => Token.noConfusion h) (fun h => Token.noConfusion h)) hok
    | Decbyte =>
      simp only [buildJumps] at hok
      exact ih l (i + 1) st m m' hdrop'
        (jinv_weaken hinv hi (fun h => Token.noConfusion h) (fun h => Token.noConfusion h)) hok
    | Outbyte =>
      simp only [buildJumps] at hok
      exact ih l (i + 1) st m m' hdrop'
        (jinv_weaken hinv hi (fun h => Token.noConfusion h) (fun h => Token.noConfusion h)) hok
    | Inbyte =>
      simp only [buildJumps] at hok
      exact ih l (i + 1) st m m' hdrop'
        (jinv_weaken hinv hi (fun h => Token.noConfusion h) (fun h => Token.noConfusion h)) hok

/-! ### Successful construction -/

theorem new_ok_spec (code : String) (interp : Interpreter)
    (h : Interpreter.new code = .ok interp) :
    interp.ip = 0 ∧ interp.dp = 0 ∧ interp.cells = List.replicate 1024 0 ∧
    interp.insns = lex code ∧ buildJumps (lex code) 0 [] [] = .ok interp.jumps := by
  unfold Interpreter.new at h
  simp only [] at h
  cases hb : buildJumps (lex code) 0 [] [] with
  | error e => rw [hb] at h; exact Except.noConfusion h
  | ok jm =>
    rw [hb] at h
    simp only at h
    injection h with h
    subst h
    exact ⟨rfl, rfl, rfl, rfl, rfl⟩

theorem new_ok_jfinal (code : String) (interp : Interpreter)
    (h : Interpreter.new code = .ok interp) : JFinal interp.insns interp.jumps := by
  obtain ⟨_, _, _, hinsns, hb⟩ := new_ok_spec code interp h
  rw [hinsns]
  exact buildJumps_inv (lex code) (lex code) 0 [] [] interp.jumps rfl (jinv_init _) hb

/-- C2: for every source whose brackets are well formed (i.e. construction
succeeds), the jump table is symmetric (`table[table[i]] = i` for every
key `i`), its keys are exactly the loop-start and loop-end positions of
the Program, and every entry pairs a loop-start position with its
loop-end counterpart to the right (and the mutual entry back). -/
theorem jump_table_invariant (code : String) (interp : Interpreter)
    (h : Interpreter.new code = .ok interp) :
    (∀ k j, jlookup interp.jumps k = some j → jlookup interp.jumps j = some k) ∧
    (∀ k, (jlookup interp.jumps k).isSome ↔
      (interp.insns[k]? = some Token.Forward ∨ interp.insns[k]? = some Token.Backward)) ∧
    (∀ k j, jlookup interp.jumps k = some j →
      ((interp.insns[k]? = some Token.Forward ∧ interp.insns[j]? = some Token.Backward ∧ k < j) ∨
       (interp.insns[k]? = some Token.Backward ∧ interp.insns[j]? = some Token.Forward ∧ j < k))) := by
  obtain ⟨hsym, hdom, hpair⟩ := new_ok_jfinal code interp h
  exact ⟨hsym, hdom, hpair⟩

/-- Witness for C2 at the concrete source `[]`: the generated table is
`[(0, 1), (1, 0)]` and maps position 1 back to position 0. -/
theorem jump_table_invariant_witness :
    jlookup [(0, 1), (1, 0)] 1 = some 0 :=
  (jump_table_invariant "[]"
    { ip := 0, dp := 0, cells := List.replicate 1024 0,
      insns := [Token.Forward, Token.Backward], jumps := [(0, 1), (1, 0)] } rfl).1
    0 1 rfl

/-! ### Execution-step lemmas -/

theorem execInsn_cont_frame (tok : Token) (s s' : RunState)
    (h : execInsn tok s = .cont s') :
    s'.interp.insns = s.interp.insns ∧ s'.interp.jumps = s.interp.jumps := by
  cases tok <;> simp only [execInsn] at h <;>
    (repeat' split at h) <;>
    first
      | exact StepOut.noConfusion h
      | (injection h with h; subst h; exact ⟨rfl, rfl⟩)

theorem execInsn_halt_bracketMatch (tok : Token) (s s' : RunState)
    (h : execInsn tok s = .halt RunError.bracketMatch s') :
    (tok = Token.Forward ∨ tok = Token.Backward) ∧
    jlookup s.interp.jumps s.interp.ip = none := by
  cases tok <;> simp only [execInsn] at h <;>
    (repeat' split at h) <;>
    first
      | exact StepOut.noConfusion h
      | (injection h with h1 h2; exact RunError.noConfusion h1)
      | (injection h with h1 h2
         exact ⟨Or.inl rfl, by assumption⟩)
      | (injection h with h1 h2
         exact ⟨Or.inr rfl, by assumption⟩)

theorem run_no_bracket_miss (debug : Bool) : ∀ (fuel : Nat) (s : RunState),
    (∀ k, s.interp.insns[k]? = some Token.Forward ∨
          s.interp.insns[k]? = some Token.Backward →
      (jlookup s.interp.jumps k).isSome) →
    (run debug fuel s).1 ≠ RRes.err RunError.bracketMatch := by
  intro fuel
  induction fuel with
  | zero => intro s hcov; rw [run]; exact fun h => RRes.noConfusion h
  | succ fuel ih =>
    intro s hcov
    rw [run]
    split
    · exact fun h => RRes.noConfusion h
    · split
      · exact fun h => RRes.noConfusion h
      · rename_i tok hidx
        cases hstep : execInsn tok s with
        | halt e s' =>
          intro hcontra
          have he : RRes.err e = RRes.err RunError.bracketMatch := hcontra
          injection he with he
          subst he
          obtain ⟨htok, hnone⟩ := execInsn_halt_bracketMatch tok s s' hstep
          have hsome : (jlookup s.interp.jumps s.interp.ip).isSome := by
            apply hcov
            rcases htok with rfl | rfl
            · exact Or.inl hidx
            · exact Or.inr hidx
          rw [hnone] at hsome
          exact Bool.noConfusion hsome
        | died s' => exact fun h => RRes.noConfusion h
        | cont s' =>
          obtain ⟨hins, hjmp⟩ := execInsn_cont_frame tok s s' hstep
          exact ih _ (by simpa [hins, hjmp] using hcov)

/-- C6: for every successfully constructed interpreter, no run — whatever
the debug flag, the input channel, and however long it executes — ever
reports the internal-consistency error of a jump-table miss (the
`"Failed to match bracket"` branch is unreachable). -/
theorem constructed_no_bracket_miss (code : String) (interp : Interpreter)
    (h : Interpreter.new code = .ok interp) (output : List Char)
    (input : List InEvent) (debug : Bool) (fuel : Nat) :
    (run debug fuel ⟨interp, output, input⟩).1 ≠ RRes.err RunError.bracketMatch := by
  apply run_no_bracket_miss
  intro k hk
  exact ((new_ok_jfinal code interp h).2.1 k).mpr hk

/-- Witness for C6 at the concrete source `[]` with generous fuel. -/
theorem constructed_no_bracket_miss_witness :
    (run false 5
        ⟨{ ip := 0, dp := 0, cells := List.replicate 1024 0,
           insns := [Token.Forward, Token.Backward], jumps := [(0, 1), (1, 0)] },
         [], []⟩).1 ≠ RRes.err RunError.bracketMatch :=
  constructed_no_bracket_miss "[]"
    { ip := 0, dp := 0, cells := List.replicate 1024 0,
      insns := [Token.Forward, Token.Backward], jumps := [(0, 1), (1, 0)] }
    rfl [] [] false 5

/-- C9: running with the debug flag enabled and with it disabled produce
the same outcome and the same final state, for every starting state and
every amount of fuel; the debug trace is a pure side channel. -/
theorem debug_flag_irrelevant : ∀ (fuel : Nat) (s : RunState),
    (run true fuel s).1 = (run false fuel s).1 ∧
    (run true fuel s).2.1 = (run false fuel s).2.1 := by
  intro fuel
  induction fuel with
  | zero => intro s; exact ⟨rfl, rfl⟩
  | succ fuel ih =>
    intro s
    rw [run, run]
    by_cases hbrk : s.interp.ip > usizeWrapSub1 s.interp.insns.length
    · rw [if_pos hbrk, if_pos hbrk]
      exact ⟨rfl, rfl⟩
    · rw [if_neg hbrk, if_neg hbrk]
      split
      · exact ⟨rfl, rfl⟩
      · rename_i tok hidx
        cases hstep : execInsn tok s with
        | halt e s' => exact ⟨rfl, rfl⟩
        | died s' => exact ⟨rfl, rfl⟩
        | cont s' => exact ih _

/-! ### Single-step unfolding lemmas -/

theorem run_one_cont (debug : Bool) (fuel : Nat) (s s' : RunState) (tok : Token)
    (hplen : s.interp.insns.length < 2 ^ 64)
    (hidx : s.interp.insns[s.interp.ip]? = some tok)
    (hstep : execInsn tok s = .cont s') :
    run debug (fuel + 1) s =
      ((run debug fuel { s' with interp := { s'.interp with ip := usizeWrapSucc s'.interp.ip } }).1,
       (run debug fuel { s' with interp := { s'.interp with ip := usizeWrapSucc s'.interp.ip } }).2.1,
       (if debug then [mkSnapshot tok s] else []) ++
         (run debug fuel { s' with interp := { s'.interp with ip := usizeWrapSucc s'.interp.ip } }).2.2) := by
  have hip : s.interp.ip < s.interp.insns.length := (List.getElem?_eq_some.mp hidx).1
  rw [run, if_neg (break_test_false hip hplen)]
  split
  · rename_i heq
    rw [hidx] at heq
    exact Option.noConfusion heq
  · rename_i tok2 heq
    rw [hidx] at heq
    injection heq with heq
    subst heq
    rw [hstep]

theorem run_one_halt (debug : Bool) (fuel : Nat) (s s' : RunState) (tok : Token) (e : RunError)
    (hplen : s.interp.insns.length < 2 ^ 64)
    (hidx : s.interp.insns[s.interp.ip]? = some tok)
    (hstep : execInsn tok s = .halt e s') :
    run debug (fuel + 1) s = (.err e, s', if debug then [mkSnapshot tok s] else []) := by
  have hip : s.interp.ip < s.interp.insns.length := (List.getElem?_eq_some.mp hidx).1
  rw [run, if_neg (break_test_false hip hplen)]
  split
  · rename_i heq
    rw [hidx] at heq
    exact Option.noConfusion heq
  · rename_i tok2 heq
    rw [hidx] at heq
    injection heq with heq
    subst heq
    rw [hstep]

/-! ### Per-instruction equations for `execInsn` -/

theorem execInsn_Forward_jump (s : RunState) (j : Nat)
    (hv : s.interp.cells[s.interp.dp]? = some 0)
    (hj : jlookup s.interp.jumps s.interp.ip = some j) :
    execInsn Token.Forward s = .cont { s with interp := { s.interp with ip := j } } := by
  simp only [execInsn]
  rw [hv, hj]
  rfl

theorem execInsn_Forward_fall (s : RunState) (v : Int)
    (hv : s.interp.cells[s.interp.dp]? = some v) (hvne : v ≠ 0) :
    execInsn Token.Forward s = .cont s := by
  simp only [execInsn]
  rw [hv]
  simp [hvne]

theorem execInsn_Backward_jump (s : RunState) (j : Nat) (v : Int)
    (hv : s.interp.cells[s.interp.dp]? = some v) (hvne : v ≠ 0)
    (hj : jlookup s.interp.jumps s.interp.ip = some j) :
    execInsn Token.Backward s = .cont { s with interp := { s.interp with ip := j } } := by
  simp only [execInsn]
  rw [hv]
  simp [hvne, hj]

theorem execInsn_Backward_fall (s : RunState)
    (hv : s.interp.cells[s.interp.dp]? = some 0) :
    execInsn Token.Backward s = .cont s := by
  simp only [execInsn]
  rw [hv]
  simp

theorem execInsn_Incptr_ok (s : RunState)
    (h : usizeWrapSucc s.interp.dp < s.interp.cells.length) :
    execInsn Token.Incptr s =
      .cont { s with interp := { s.interp with dp := usizeWrapSucc s.interp.dp } } := by
  simp only [execInsn]
  rw [if_neg (by omega)]

theorem execInsn_Incptr_overflow (s : RunState)
    (h : usizeWrapSucc s.interp.dp ≥ s.interp.cells.length) :
    execInsn Token.Incptr s =
      .halt .memoryOverflow { s with interp := { s.interp with dp := usizeWrapSucc s.interp.dp } } := by
  simp only [execInsn]
  rw [if_pos h]

theorem execInsn_Decptr_ok (s : RunState) (h : s.interp.dp ≠ 0) :
    execInsn Token.Decptr s =
      .cont { s with interp := { s.interp with dp := s.interp.dp - 1 } } := by
  simp only [execInsn]
  rw [if_neg h]

theorem execInsn_Decptr_underflow (s : RunState) (h : s.interp.dp = 0) :
    execInsn Token.Decptr s = .halt .memoryUnderflow s := by
  simp only [execInsn]
  rw [if_pos h]

theorem execInsn_Incbyte_eq (s : RunState) (v : Int)
    (hv : s.interp.cells[s.interp.dp]? = some v) :
    execInsn Token.Incbyte s =
      .cont { s with interp :=
        { s.interp with cells := s.interp.cells.set s.interp.dp (isizeWrapAdd v 1) } } := by
  simp only [execInsn]
  rw [hv]

theorem execInsn_Decbyte_eq (s : RunState) (v : Int)
    (hv : s.interp.cells[s.interp.dp]? = some v) :
    execInsn Token.Decbyte s =
      .cont { s with interp :=
        { s.interp with cells := s.interp.cells.set s.interp.dp (isizeWrapAdd v (-1)) } } := by
  simp only [execInsn]
  rw [hv]

theorem execInsn_Outbyte_eq (s : RunState) (v : Int)
    (hv : s.interp.cells[s.interp.dp]? = some v) :
    execInsn Token.Outbyte s =
      if Nat.isValidChar (castU32 v) then
        .cont { s with output := s.output ++ [Char.ofNat (castU32 v)] }
      else .cont s := by
  simp only [execInsn]
  rw [hv]

theorem execInsn_Inbyte_empty (s : RunState) (hin : s.input = []) :
    execInsn Token.Inbyte s = .cont s := by
  simp only [execInsn]
  rw [hin]

theorem execInsn_Inbyte_byte (s : RunState) (b : Nat) (rest : List InEvent) (v : Int)
    (hin : s.input = InEvent.byte b :: rest)
    (hv : s.interp.cells[s.interp.dp]? = some v) :
    execInsn Token.Inbyte s =
      .cont { s with
        interp := { s.interp with
          cells := s.interp.cells.set s.interp.dp ((b % 256 : Nat) : Int) },
        input := rest } := by
  simp only [execInsn]
  rw [hin, hv]

/-- C1: executing a loop-start whose current cell is 0 sets the
instruction pointer to the jump table's paired position and the pointer is
then auto-incremented, so execution resumes at the pair's position + 1;
executing a loop-end whose current cell is non-zero likewise resumes at
the pair's position + 1; in every other executed case (loop-start with
non-zero cell, loop-end with zero cell, and each of the six non-bracket
instructions when it continues) the instruction pointer advances by 1. -/
theorem loop_jump_semantics (s : RunState) (hplen : s.interp.insns.length < 2 ^ 64) :
    (∀ j, s.interp.insns[s.interp.ip]? = some Token.Forward →
      s.interp.cells[s.interp.dp]? = some 0 →
      jlookup s.interp.jumps s.interp.ip = some j → j < s.interp.insns.length →
      ∀ debug, (run debug 1 s).1 = RRes.timeout ∧
        (run debug 1 s).2.1.interp.ip = j + 1 ∧
        (run debug 1 s).2.1.interp.cells = s.interp.cells ∧
        (run debug 1 s).2.1.output = s.output) ∧
    (∀ j v, s.interp.insns[s.interp.ip]? = some Token.Backward →
      s.interp.cells[s.interp.dp]? = some v → v ≠ 0 →
      jlookup s.interp.jumps s.interp.ip = some j → j < s.interp.insns.length →
      ∀ debug, (run debug 1 s).1 = RRes.timeout ∧
        (run debug 1 s).2.1.interp.ip = j + 1 ∧
        (run debug 1 s).2.1.interp.cells = s.interp.cells ∧
        (run debug 1 s).2.1.output = s.output) ∧
    (∀ v, s.interp.insns[s.interp.ip]? = some Token.Forward →
      s.interp.cells[s.interp.dp]? = some v → v ≠ 0 →
      ∀ debug, (run debug 1 s).2.1.interp.ip = s.interp.ip + 1) ∧
    (s.interp.insns[s.interp.ip]? = some Token.Backward →
      s.interp.cells[s.interp.dp]? = some 0 →
      ∀ debug, (run debug 1 s).2.1.interp.ip = s.interp.ip + 1) ∧
    (s.interp.insns[s.interp.ip]? = some Token.Incptr →
      usizeWrapSucc s.interp.dp < s.interp.cells.length →
      ∀ debug, (run debug 1 s).2.1.interp.ip = s.interp.ip + 1) ∧
    (s.interp.insns[s.interp.ip]? = some Token.Decptr → s.interp.dp ≠ 0 →
      ∀ debug, (run debug 1 s).2.1.interp.ip = s.interp.ip + 1) ∧
    (∀ v, s.interp.insns[s.interp.ip]? = some Token.Incbyte →
      s.interp.cells[s.interp.dp]? = some v →
      ∀ debug, (run debug 1 s).2.1.interp.ip = s.interp.ip + 1) ∧
    (∀ v, s.interp.insns[s.interp.ip]? = some Token.Decbyte →
      s.interp.cells[s.interp.dp]? = some v →
      ∀ debug, (run debug 1 s).2.1.interp.ip = s.interp.ip + 1) ∧
    (∀ v, s.interp.insns[s.interp.ip]? = some Token.Outbyte →
      s.interp.cells[s.interp.dp]? = some v →
      ∀ debug, (run debug 1 s).2.1.interp.ip = s.interp.ip + 1) ∧
    (s.interp.insns[s.interp.ip]? = some Token.Inbyte → s.input = [] →
      ∀ debug, (run debug 1 s).2.1.interp.ip = s.interp.ip + 1) ∧
    (∀ b rest v, s.interp.insns[s.interp.ip]? = some Token.Inbyte →
      s.input = InEvent.byte b :: rest →
      s.interp.cells[s.interp.dp]? = some v →
      ∀ debug, (run debug 1 s).2.1.interp.ip = s.interp.ip + 1) := by
  refine ⟨?_, ?_, ?_, ?_, ?_, ?_, ?_, ?_, ?_, ?_, ?_⟩
  · intro j hF h0 hj hjlen debug
    have h1 := run_one_cont debug 0 s _ Token.Forward hplen hF (execInsn_Forward_jump s j h0 hj)
    rw [Nat.zero_add] at h1
    rw [h1]
    refine ⟨rfl, ?_, rfl, rfl⟩
    show usizeWrapSucc j = j + 1
    exact usizeWrapSucc_eq (by omega)
  · intro j v hB hv hvne hj hjlen debug
    have h1 := run_one_cont debug 0 s _ Token.Backward hplen hB
      (execInsn_Backward_jump s j v hv hvne hj)
    rw [Nat.zero_add] at h1
    rw [h1]
    refine ⟨rfl, ?_, rfl, rfl⟩
    show usizeWrapSucc j = j + 1
    exact usizeWrapSucc_eq (by omega)
  · intro v hF hv hvne debug
    have hip := (List.getElem?_eq_some.mp hF).1
    have h1 := run_one_cont debug 0 s _ Token.Forward hplen hF (execInsn_Forward_fall s v hv hvne)
    rw [Nat.zero_add] at h1
    rw [h1]
    show usizeWrapSucc s.interp.ip = s.interp.ip + 1
    exact usizeWrapSucc_eq (by omega)
  · intro hB h0 debug
    have hip := (List.getElem?_eq_some.mp hB).1
    have h1 := run_one_cont debug 0 s _ Token.Backward hplen hB (execInsn_Backward_fall s h0)
    rw [Nat.zero_add] at h1
    rw [h1]
    show usizeWrapSucc s.interp.ip = s.interp.ip + 1
    exact usizeWrapSucc_eq (by omega)
  · intro hI hdp debug
    have hip := (List.getElem?_eq_some.mp hI).1
    have h1 := run_one_cont debug 0 s _ Token.Incptr hplen hI (execInsn_Incptr_ok s hdp)
    rw [Nat.zero_add] at h1
    rw [h1]
    show usizeWrapSucc s.interp.ip = s.interp.ip + 1
    exact usizeWrapSucc_eq (by omega)
  · intro hD hdp debug
    have hip := (List.getElem?_eq_some.mp hD).1
    have h1 := run_one_cont debug 0 s _ Token.Decptr hplen hD (execInsn_Decptr_ok s hdp)
    rw [Nat.zero_add] at h1
    rw [h1]
    show usizeWrapSucc s.interp.ip = s.interp.ip + 1
    exact usizeWrapSucc_eq (by omega)
  · intro v hI hv debug
    have hip := (List.getElem?_eq_some.mp hI).1
    have h1 := run_one_cont debug 0 s _ Token.Incbyte hplen hI (execInsn_Incbyte_eq s v hv)
    rw [Nat.zero_add] at h1
    rw [h1]
    show usizeWrapSucc s.interp.ip = s.interp.ip + 1
    exact usizeWrapSucc_eq (by omega)
  · intro v hD hv debug
    have hip := (List.getElem?_eq_some.mp hD).1
    have h1 := run_one_cont debug 0 s _ Token.Decbyte hplen hD (execInsn_Decbyte_eq s v hv)
    rw [Nat.zero_add] at h1
    rw [h1]
    show usizeWrapSucc s.interp.ip = s.interp.ip + 1
    exact usizeWrapSucc_eq (by omega)
  · intro v hO hv debug
    have hip := (List.getElem?_eq_some.mp hO).1
    by_cases hvalid : Nat.isValidChar (castU32 v)
    · have hstep := execInsn_Outbyte_eq s v hv
      rw [if_pos hvalid] at hstep
      have h1 := run_one_cont debug 0 s _ Token.Outbyte hplen hO hstep
      rw [Nat.zero_add] at h1
      rw [h1]
      show usizeWrapSucc s.interp.ip = s.interp.ip + 1
      exact usizeWrapSucc_eq (by omega)
    · have hstep := execInsn_Outbyte_eq s v hv
      rw [if_neg hvalid] at hstep
      have h1 := run_one_cont debug 0 s _ Token.Outbyte hplen hO hstep
      rw [Nat.zero_add] at h1
      rw [h1]
      show usizeWrapSucc s.interp.ip = s.interp.ip + 1
      exact usizeWrapSucc_eq (by omega)
  · intro hI hin debug
    have hip := (List.getElem?_eq_some.mp hI).1
    have h1 := run_one_cont debug 0 s _ Token.Inbyte hplen hI (execInsn_Inbyte_empty s hin)
    rw [Nat.zero_add] at h1
    rw [h1]
    show usizeWrapSucc s.interp.ip = s.interp.ip + 1
    exact usizeWrapSucc_eq (by omega)
  · intro b rest v hI hin hv debug
    have hip := (List.getElem?_eq_some.mp hI).1
    have h1 := run_one_cont debug 0 s _ Token.Inbyte hplen hI
      (execInsn_Inbyte_byte s b rest v hin hv)
    rw [Nat.zero_add] at h1
    rw [h1]
    show usizeWrapSucc s.interp.ip = s.interp.ip + 1
    exact usizeWrapSucc_eq (by omega)

/-- Witness for C1: in a program `[++]` (with jump table pairing 0 and 3)
whose current cell is 0, the loop-start at position 0 jumps so that
execution resumes at position 3 + 1 = 4. -/
theorem loop_jump_semantics_witness :
    (run false 1
        ⟨{ ip := 0, dp := 0, cells := [(0 : Int)],
           insns := [Token.Forward, Token.Incbyte, Token.Incbyte, Token.Backward],
           jumps := [(0, 3), (3, 0)] }, [], []⟩).2.1.interp.ip = 3 + 1 :=
  ((loop_jump_semantics
      ⟨{ ip := 0, dp := 0, cells := [(0 : Int)],
         insns := [Token.Forward, Token.Incbyte, Token.Incbyte, Token.Backward],
         jumps := [(0, 3), (3, 0)] }, [], []⟩ (by decide)).1
    3 rfl rfl rfl (by decide) false).2.1

/-! ### The all-moves-right program -/

theorem filterMap_replicate_gt (n : Nat) :
    List.filterMap tokenOfCharSpec (List.replicate n '>') = List.replicate n Token.Incptr := by
  induction n with
  | zero => rfl
  | succ n ih =>
    rw [List.replicate_succ, List.replicate_succ, List.filterMap_cons, ih]
    rfl

theorem lex_replicate_gt (n : Nat) :
    lex (String.mk (List.replicate n '>')) = List.replicate n Token.Incptr := by
  rw [lex_eq_filterMap]
  show List.filterMap tokenOfCharSpec (List.replicate n '>') = _
  exact filterMap_replicate_gt n

theorem buildJumps_incptr (n : Nat) :
    ∀ (i : Nat) (m : List (Nat × Nat)),
    buildJumps (List.replicate n Token.Incptr) i [] m = .ok m := by
  induction n with
  | zero => intro i m; rfl
  | succ n ih => intro i m; rw [List.replicate_succ]; exact ih (i + 1) m

theorem new_replicate_gt :
    Interpreter.new (String.mk (List.replicate 1024 '>')) =
      .ok { ip := 0, dp := 0, cells := List.replicate 1024 0,
            insns := List.replicate 1024 Token.Incptr, jumps := [] } := by
  unfold Interpreter.new
  simp only [lex_replicate_gt, buildJumps_incptr]

theorem runstate_bump (s' : RunState) (n : Nat) (h : usizeWrapSucc s'.interp.ip = n) :
    ({ s' with interp := { s'.interp with ip := usizeWrapSucc s'.interp.ip } } : RunState) =
    { s' with interp := { s'.interp with ip := n } } := by rw [h]

/-- The state reached after executing `j` steps of the program consisting
of 1024 move-pointer-right instructions. -/
abbrev mvState (j : Nat) (jm : List (Nat × Nat)) (out : List Char) (inp : List InEvent) : RunState :=
  ⟨{ ip := j, dp := j, cells := List.replicate 1024 0,
     insns := List.replicate 1024 Token.Incptr, jumps := jm }, out, inp⟩

theorem run_incptr_progress (jm : List (Nat × Nat)) (out : List Char) (inp : List InEvent) :
    ∀ (k j : Nat), j + k ≤ 1023 →
    run false k (mvState j jm out inp) = (RRes.timeout, mvState (j + k) jm out inp, []) := by
  intro k
  induction k with
  | zero => intro j h; rw [run]; simp
  | succ k ih =>
    intro j h
    have hidx : (List.replicate 1024 Token.Incptr)[j]? = some Token.Incptr := by
      rw [List.getElem?_replicate, if_pos (by omega)]
    have hplen : (List.replicate 1024 Token.Incptr).length < 2 ^ 64 := by
      rw [List.length_replicate]; norm_num
    have hstep : execInsn Token.Incptr (mvState j jm out inp) =
        .cont ⟨{ ip := j, dp := j + 1, cells := List.replicate 1024 0,
                 insns := List.replicate 1024 Token.Incptr, jumps := jm }, out, inp⟩ := by
      have h2 := execInsn_Incptr_ok (mvState j jm out inp)
        (by show usizeWrapSucc j < (List.replicate 1024 (0 : Int)).length
            rw [usizeWrapSucc_eq (by omega), List.length_replicate]; omega)
      rw [h2]
      have hu : usizeWrapSucc (mvState j jm out inp).interp.dp = j + 1 :=
        usizeWrapSucc_eq (by show j + 1 < 2 ^ 64; omega)
      rw [hu]
    rw [run_one_cont false k (mvState j jm out inp) _ Token.Incptr hplen hidx hstep]
    rw [runstate_bump _ (j + 1) (usizeWrapSucc_eq (by show j + 1 < 2 ^ 64; omega))]
    rw [show ({ interp := { ip := j + 1, dp := j + 1, cells := List.replicate 1024 0,
                            insns := List.replicate 1024 Token.Incptr, jumps := jm },
                output := out, input := inp } : RunState) =
          mvState (j + 1) jm out inp from rfl]
    rw [ih (j + 1) (by omega)]
    rw [show j + 1 + k = j + (k + 1) from by omega]
    rfl

theorem run_incptr_overflow (jm : List (Nat × Nat)) (out : List Char) (inp : List InEvent) :
    ∀ (fuel j : Nat), j ≤ 1023 → 1024 - j ≤ fuel →
    (run false fuel (mvState j jm out inp)).1 = RRes.err RunError.memoryOverflow := by
  intro fuel
  induction fuel with
  | zero => intro j h1 h2; omega
  | succ fuel ih =>
    intro j h1 h2
    have hidx : (List.replicate 1024 Token.Incptr)[j]? = some Token.Incptr := by
      rw [List.getElem?_replicate, if_pos (by omega)]
    have hplen : (List.replicate 1024 Token.Incptr).length < 2 ^ 64 := by
      rw [List.length_replicate]; norm_num
    by_cases hj : j = 1023
    · subst hj
      have hstep := execInsn_Incptr_overflow (mvState 1023 jm out inp)
        (by show usizeWrapSucc 1023 ≥ (List.replicate 1024 (0 : Int)).length
            rw [usizeWrapSucc_eq (by omega), List.length_replicate])
      rw [run_one_halt false fuel (mvState 1023 jm out inp) _ Token.Incptr
        RunError.memoryOverflow hplen hidx hstep]
    · have hstep : execInsn Token.Incptr (mvState j jm out inp) =
          .cont ⟨{ ip := j, dp := j + 1, cells := List.replicate 1024 0,
                   insns := List.replicate 1024 Token.Incptr, jumps := jm }, out, inp⟩ := by
        have h2 := execInsn_Incptr_ok (mvState j jm out inp)
          (by show usizeWrapSucc j < (List.replicate 1024 (0 : Int)).length
              rw [usizeWrapSucc_eq (by omega), List.length_replicate]; omega)
        rw [h2]
        have hu : usizeWrapSucc (mvState j jm out inp).interp.dp = j + 1 :=
          usizeWrapSucc_eq (by show j + 1 < 2 ^ 64; omega)
        rw [hu]
      rw [run_one_cont false fuel (mvState j jm out inp) _ Token.Incptr hplen hidx hstep]
      rw [runstate_bump _ (j + 1) (usizeWrapSucc_eq (by show j + 1 < 2 ^ 64; omega))]
      rw [show ({ interp := { ip := j + 1, dp := j + 1, cells := List.replicate 1024 0,
                              insns := List.replicate 1024 Token.Incptr, jumps := jm },
                  output := out, input := inp } : RunState) =
            mvState (j + 1) jm out inp from rfl]
      exact ih (j + 1) (by omega) (by omega)

/-- C4: moving the data pointer right from position tape-length − 1 fails
with Memory Overflow, moving it left from position 0 fails with Memory
Underflow, both immediately (the run's result is that error for any amount
of remaining fuel, and the instruction pointer still points at the
offending instruction, so no further instruction runs); and for the
program of exactly 1024 move-pointer-right instructions, every prefix of
at most 1023 steps executes normally (instruction and data pointer advance
in lockstep, no output), while any longer run fails with Memory
Overflow — the failure occurs exactly at the instruction that would cross
the bound. -/
theorem pointer_bounds_errors (s : RunState)
    (hclen : s.interp.cells.length < 2 ^ 64)
    (hplen : s.interp.insns.length < 2 ^ 64) :
    (s.interp.insns[s.interp.ip]? = some Token.Incptr →
      s.interp.dp = s.interp.cells.length - 1 →
      ∀ debug fuel, (run debug (fuel + 1) s).1 = RRes.err RunError.memoryOverflow ∧
        (run debug (fuel + 1) s).2.1.interp.ip = s.interp.ip) ∧
    (s.interp.insns[s.interp.ip]? = some Token.Decptr → s.interp.dp = 0 →
      ∀ debug fuel, (run debug (fuel + 1) s).1 = RRes.err RunError.memoryUnderflow ∧
        (run debug (fuel + 1) s).2.1.interp.ip = s.interp.ip) ∧
    (∀ interp, Interpreter.new (String.mk (List.replicate 1024 '>')) = .ok interp →
      (∀ k, k ≤ 1023 →
        (run false k ⟨interp, [], []⟩).1 = RRes.timeout ∧
        (run false k ⟨interp, [], []⟩).2.1.interp.ip = k ∧
        (run false k ⟨interp, [], []⟩).2.1.interp.dp = k ∧
        (run false k ⟨interp, [], []⟩).2.1.output = []) ∧
      (∀ fuel, 1024 ≤ fuel →
        (run false fuel ⟨interp, [], []⟩).1 = RRes.err RunError.memoryOverflow)) := by
  refine ⟨?_, ?_, ?_⟩
  · intro hI hdp debug fuel
    have hov : usizeWrapSucc s.interp.dp ≥ s.interp.cells.length := by
      unfold usizeWrapSucc
      omega
    have hstep := execInsn_Incptr_overflow s hov
    rw [run_one_halt debug fuel s _ Token.Incptr RunError.memoryOverflow hplen hI hstep]
    exact ⟨rfl, rfl⟩
  · intro hD hdp debug fuel
    have hstep := execInsn_Decptr_underflow s hdp
    rw [run_one_halt debug fuel s _ Token.Decptr RunError.memoryUnderflow hplen hD hstep]
    exact ⟨rfl, rfl⟩
  · intro interp hnew
    rw [new_replicate_gt] at hnew
    injection hnew with hnew
    subst hnew
    constructor
    · intro k hk
      have hp := run_incptr_progress [] [] [] k 0 (by omega)
      rw [show (0 : Nat) + k = k from by omega] at hp
      refine ⟨?_, ?_, ?_, ?_⟩ <;> rw [hp]
    · intro fuel hfuel
      have hv := run_incptr_overflow [] [] [] fuel 0 (by omega) (by omega)
      exact hv

/-- Witness for C4: a two-cell tape with the data pointer on the last cell
fails with Memory Overflow when executing move-pointer-right. -/
theorem pointer_bounds_errors_witness :
    (run false 1
        ⟨{ ip := 0, dp := 1, cells := [(0 : Int), 0],
           insns := [Token.Incptr], jumps := [] }, [], []⟩).1 =
      RRes.err RunError.memoryOverflow :=
  ((pointer_bounds_errors
      ⟨{ ip := 0, dp := 1, cells := [(0 : Int), 0],
         insns := [Token.Incptr], jumps := [] }, [], []⟩
      (by norm_num) (by norm_num)).1 rfl rfl false 0).1

/-- C7 counterexample: with the current cell holding 2^32 = 4294967296 —
which is not a valid code point — the output step does NOT leave the
output unchanged, and the character it appends has code point 0, not the
cell's value: the cell is cast with `as u32` before `char::from_u32`, so
the claim "appends the character whose code point equals the current
cell's value; if the value is not a valid code point, emits nothing" is
false at this state. -/
theorem outbyte_codepoint_counterexample :
    ¬ (((run false 1
          ⟨{ ip := 0, dp := 0, cells := [(4294967296 : Int)],
             insns := [Token.Outbyte], jumps := [] }, [], []⟩).2.1.output =
        ([] : List Char)) ∨
       (∃ c : Char,
         (run false 1
            ⟨{ ip := 0, dp := 0, cells := [(4294967296 : Int)],
               insns := [Token.Outbyte], jumps := [] }, [], []⟩).2.1.output = [c] ∧
         c.toNat = 4294967296)) := by
  have hrun : (run false 1
      ⟨{ ip := 0, dp := 0, cells := [(4294967296 : Int)],
         insns := [Token.Outbyte], jumps := [] }, [], []⟩).2.1.output =
      [Char.ofNat 0] := by decide
  rintro (h | ⟨c, hc, hcv⟩)
  · rw [hrun] at h
    exact List.noConfusion h
  · rw [hrun] at hc
    injection hc with h1 _
    rw [← h1] at hcv
    exact absurd hcv (by decide)

/-- C7 (amended): executing output-cell first truncates the cell's value
to its low 32 bits (the `as u32` cast, i.e. reduction modulo 2^32); if the
reduced value is a valid code point the corresponding character is
appended to the output sequence, otherwise nothing is emitted; in either
case no error is raised, the tape and pointers are unchanged, and
execution continues at the next instruction. -/
theorem outbyte_semantics (s : RunState) (v : Int)
    (hplen : s.interp.insns.length < 2 ^ 64)
    (hO : s.interp.insns[s.interp.ip]? = some Token.Outbyte)
    (hv : s.interp.cells[s.interp.dp]? = some v) :
    ∀ debug, (run debug 1 s).1 = RRes.timeout ∧
      (run debug 1 s).2.1.output =
        (if Nat.isValidChar (castU32 v) then s.output ++ [Char.ofNat (castU32 v)]
         else s.output) ∧
      (run debug 1 s).2.1.interp.ip = s.interp.ip + 1 ∧
      (run debug 1 s).2.1.interp.dp = s.interp.dp ∧
      (run debug 1 s).2.1.interp.cells = s.interp.cells := by
  intro debug
  have hip := (List.getElem?_eq_some.mp hO).1
  by_cases hvalid : Nat.isValidChar (castU32 v)
  · have hstep := execInsn_Outbyte_eq s v hv
    rw [if_pos hvalid] at hstep
    have h1 := run_one_cont debug 0 s _ Token.Outbyte hplen hO hstep
    rw [Nat.zero_add] at h1
    rw [h1, if_pos hvalid]
    refine ⟨rfl, rfl, ?_, rfl, rfl⟩
    show usizeWrapSucc s.interp.ip = s.interp.ip + 1
    exact usizeWrapSucc_eq (by omega)
  · have hstep := execInsn_Outbyte_eq s v hv
    rw [if_neg hvalid] at hstep
    have h1 := run_one_cont debug 0 s _ Token.Outbyte hplen hO hstep
    rw [Nat.zero_add] at h1
    rw [h1, if_neg hvalid]
    refine ⟨rfl, rfl, ?_, rfl, rfl⟩
    show usizeWrapSucc s.interp.ip = s.interp.ip + 1
    exact usizeWrapSucc_eq (by omega)

/-- Witness for C7 (amended) at a concrete state: the cell holds 103
(the code point of the letter g), which is emitted. -/
theorem outbyte_semantics_witness :
    (run false 1
        ⟨{ ip := 0, dp := 0, cells := [(103 : Int)],
           insns := [Token.Outbyte], jumps := [] }, [], []⟩).2.1.output =
      (if Nat.isValidChar (castU32 103) then
        ([] : List Char) ++ [Char.ofNat (castU32 103)] else ([] : List Char)) :=
  ((outbyte_semantics
      ⟨{ ip := 0, dp := 0, cells := [(103 : Int)],
         insns := [Token.Outbyte], jumps := [] }, [], []⟩ 103
      (by norm_num) rfl rfl) false).2.1

/-- The state after an increment-cell step from `s` on cell value `v`,
with the instruction pointer set to `n`. -/
abbrev incState (s : RunState) (v : Int) (n : Nat) : RunState :=
  ⟨{ ip := n, dp := s.interp.dp,
     cells := s.interp.cells.set s.interp.dp (isizeWrapAdd v 1),
     insns := s.interp.insns, jumps := s.interp.jumps }, s.output, s.input⟩

/-- C10: cell arithmetic is signed with no clamping at zero and no 8-bit
wraparound: decrement-cell on a cell holding 0 stores −1 and execution
continues at the next instruction; increment-cell followed by
decrement-cell at the same data pointer restores the original cell value
(for every value representable in the cell, i.e. in the `isize` range);
and increment-cell on a cell holding 255 stores 256 (not 0 as an 8-bit
wrap would, and not 255 as clamping would). -/
theorem cell_arithmetic_signed (s : RunState)
    (hplen : s.interp.insns.length < 2 ^ 64) :
    (s.interp.insns[s.interp.ip]? = some Token.Decbyte →
      s.interp.cells[s.interp.dp]? = some 0 →
      ∀ debug, (run debug 1 s).1 = RRes.timeout ∧
        (run debug 1 s).2.1.interp.cells[s.interp.dp]? = some (-1 : Int) ∧
        (run debug 1 s).2.1.interp.ip = s.interp.ip + 1) ∧
    (∀ v : Int, -(2 ^ 63) ≤ v → v < 2 ^ 63 →
      s.interp.insns[s.interp.ip]? = some Token.Incbyte →
      s.interp.insns[s.interp.ip + 1]? = some Token.Decbyte →
      s.interp.cells[s.interp.dp]? = some v →
      (run false 2 s).2.1.interp.cells[s.interp.dp]? = some v) ∧
    (s.interp.insns[s.interp.ip]? = some Token.Incbyte →
      s.interp.cells[s.interp.dp]? = some 255 →
      ∀ debug, (run debug 1 s).2.1.interp.cells[s.interp.dp]? = some (256 : Int)) := by
  refine ⟨?_, ?_, ?_⟩
  · intro hD h0 debug
    have hip := (List.getElem?_eq_some.mp hD).1
    have hdp := (List.getElem?_eq_some.mp h0).1
    have h1 := run_one_cont debug 0 s _ Token.Decbyte hplen hD (execInsn_Decbyte_eq s 0 h0)
    rw [Nat.zero_add] at h1
    rw [h1]
    refine ⟨rfl, ?_, ?_⟩
    · show (s.interp.cells.set s.interp.dp (isizeWrapAdd 0 (-1)))[s.interp.dp]? =
        some (-1 : Int)
      rw [show isizeWrapAdd 0 (-1) = (-1 : Int) from by decide]
      exact List.getElem?_set_eq_of_lt _ hdp
    · show usizeWrapSucc s.interp.ip = s.interp.ip + 1
      exact usizeWrapSucc_eq (by omega)
  · intro v hlo hhi hI hD hv
    have hip := (List.getElem?_eq_some.mp hI).1
    have hdp := (List.getElem?_eq_some.mp hv).1
    have hipeq : usizeWrapSucc s.interp.ip = s.interp.ip + 1 := usizeWrapSucc_eq (by omega)
    have h1 := run_one_cont false 1 s _ Token.Incbyte hplen hI (execInsn_Incbyte_eq s v hv)
    rw [show (2 : Nat) = 1 + 1 from rfl, h1]
    show (run false 1
      (incState s v (usizeWrapSucc s.interp.ip))).2.1.interp.cells[s.interp.dp]? = some v
    rw [show incState s v (usizeWrapSucc s.interp.ip) = incState s v (s.interp.ip + 1) from
      by rw [hipeq]]
    have hI1 : (incState s v (s.interp.ip + 1)).interp.insns[s.interp.ip + 1]? =
        some Token.Decbyte := hD
    have hv1 : (incState s v (s.interp.ip + 1)).interp.cells[s.interp.dp]? =
        some (isizeWrapAdd v 1) := List.getElem?_set_eq_of_lt _ hdp
    have h2 := run_one_cont false 0 (incState s v (s.interp.ip + 1)) _ Token.Decbyte
      hplen hI1 (execInsn_Decbyte_eq _ (isizeWrapAdd v 1) hv1)
    rw [Nat.zero_add] at h2
    rw [h2]
    show ((s.interp.cells.set s.interp.dp (isizeWrapAdd v 1)).set s.interp.dp
        (isizeWrapAdd (isizeWrapAdd v 1) (-1)))[s.interp.dp]? = some v
    rw [isizeWrapAdd_inc_dec v hlo hhi]
    exact List.getElem?_set_eq_of_lt _ (by rw [List.length_set]; exact hdp)
  · intro hI hv debug
    have hip := (List.getElem?_eq_some.mp hI).1
    have hdp := (List.getElem?_eq_some.mp hv).1
    have h1 := run_one_cont debug 0 s _ Token.Incbyte hplen hI (execInsn_Incbyte_eq s 255 hv)
    rw [Nat.zero_add] at h1
    rw [h1]
    show (s.interp.cells.set s.interp.dp (isizeWrapAdd 255 1))[s.interp.dp]? = some (256 : Int)
    rw [show isizeWrapAdd 255 1 = (256 : Int) from by decide]
    exact List.getElem?_set_eq_of_lt _ hdp

/-- Witness for C10: decrementing a zero cell yields −1. -/
theorem cell_arithmetic_signed_witness :
    (run false 1
        ⟨{ ip := 0, dp := 0, cells := [(0 : Int)],
           insns := [Token.Decbyte], jumps := [] }, [], []⟩).2.1.interp.cells[0]? =
      some (-1 : Int) :=
  ((cell_arithmetic_signed
      ⟨{ ip := 0, dp := 0, cells := [(0 : Int)],
         insns := [Token.Decbyte], jumps := [] }, [], []⟩
      (by norm_num)).1 rfl rfl false).2.1
